import Mathlib

/-!
Verification of the SCons auxiliary scripts against their natural-language
specification.  The development shallowly embeds three Python sources:

* `testing/framework/TimeSCons.py` — the timing harness (`SconsTiming`
  namespace).  Text is modelled as `List Char`; the two regular-expression
  shapes used by `StatList` (`LITERAL\s+(\d+)` and
  `LITERAL\s+([\d.]+) seconds`) are modelled by executable matchers.  The
  character classes `\d` and `\s` are modelled by their ASCII meaning (the
  harness parses ASCII tool output).  Greedy matching without backtracking is
  equivalent to Python's backtracking semantics for these patterns because
  the character following each greedy run is never a member of the class that
  was just consumed; leftmost search is modelled by trying each suffix.
  Side effects (writes to standard output, tool invocations) are modelled as
  event lists, and uncaught Python exceptions as an error component that
  aborts subsequent steps.
* `bench/is_types.py` — the type-predicate variants (`IsTypes` namespace).
  Python's runtime type system fragment is modelled by a class universe that
  includes the built-in types, the `User*` wrappers (which in Python 3 are
  not subclasses of the built-ins), a plain class, and one representative
  proper subclass of each built-in type (Python permits `class D(dict)`);
  `isinstance` consults the subclass relation while `type(e) is C` is exact
  class equality.
* `copy_timing_configuration` — modelled over a filesystem tree, emitting the
  `os.mkdir`/`shutil.copy2` operations in the order `os.walk` produces them
  and applying them to a destination state in which an operation fails when
  the parent directory does not exist.  Note that the source's
  `dirs = [d for d in dirs ...]` rebinds a local name and does not prune
  `os.walk`'s traversal, while `dirs.remove('.svn')` mutates the walked list
  and does prune it; the model reproduces both behaviours.
-/

namespace SconsTiming

/-- Python's `\s` on ASCII text: space, tab, newline, carriage return,
vertical tab, form feed. -/
def pyIsSpace (c : Char) : Bool :=
  c = ' ' || c = '\t' || c = '\n' || c = '\r' || c = '\x0b' || c = '\x0c'

/-- The character class `[\d.]` of the time patterns. -/
def isDigitDot (c : Char) : Bool :=
  c.isDigit || c = '.'

/-- Consume the literal `lit` from the front of `cs`, returning the rest. -/
def dropLit : List Char → List Char → Option (List Char)
  | [], cs => some cs
  | _ :: _, [] => none
  | x :: xs, y :: ys => if x = y then dropLit xs ys else none

/-- Leftmost search: try the matcher at every suffix from the left
(`re.search` also tries the position at the end of the string). -/
def searchP (p : List Char → Option α) : List Char → Option α
  | [] => p []
  | c :: t =>
    match p (c :: t) with
    | some v => some v
    | none => searchP p t

/-- The two regular-expression shapes occurring in `StatList`. -/
inductive Pat
  | mem (lit : List Char)
  | time (lit : List Char)

/-- The fixed tail `" seconds"` of the time patterns. -/
def secLit : List Char := " seconds".data

/-- Match a pattern at the current position, returning the captured group.
`mem lit` is `lit⬝\s+(\d+)` and `time lit` is `lit⬝\s+([\d.]+) seconds`. -/
def matchAt : Pat → List Char → Option (List Char)
  | .mem lit, cs =>
    match dropLit lit cs with
    | none => none
    | some r1 =>
      match r1.takeWhile pyIsSpace with
      | [] => none
      | _ :: _ =>
        let r2 := r1.dropWhile pyIsSpace
        match r2.takeWhile Char.isDigit with
        | [] => none
        | d :: ds => some (d :: ds)
  | .time lit, cs =>
    match dropLit lit cs with
    | none => none
    | some r1 =>
      match r1.takeWhile pyIsSpace with
      | [] => none
      | _ :: _ =>
        let r2 := r1.dropWhile pyIsSpace
        match r2.takeWhile isDigitDot with
        | [] => none
        | d :: ds =>
          match dropLit secLit (r2.dropWhile isDigitDot) with
          | none => none
          | some _ => some (d :: ds)

/-- Python `int` applied to a decimal digit string. -/
def digitsToNat (ds : List Char) : Nat :=
  ds.foldl (fun n c => 10 * n + (c.toNat - '0'.toNat)) 0

/-- A Python value stored in the statistics dictionary: the converted
integer of a memory stat, or the raw matched string of a time stat. -/
inductive PyVal
  | int (n : Nat)
  | str (s : List Char)
  deriving DecidableEq

/-- Rendering of a stored value by `'%s' %`, as `trace` prints it. -/
def pyRender : PyVal → List Char
  | .int n => (toString n).data
  | .str s => s

/-- One entry of `StatList`: a name, a unit label, a compiled pattern and a
conversion applied to the captured group (`convert=None` is the identity,
kept as `PyVal.str`). -/
structure Stat where
  name : List Char
  units : List Char
  pat : Pat
  convert : List Char → PyVal

/-- The fixed list of statistics extracted from the tool's output. -/
def StatList : List Stat :=
  [ { name := "memory-initial".data, units := "kbytes".data,
      pat := .mem "Memory before reading SConscript files:".data,
      convert := fun s => .int (digitsToNat s / 1024) },
    { name := "memory-prebuild".data, units := "kbytes".data,
      pat := .mem "Memory before building targets:".data,
      convert := fun s => .int (digitsToNat s / 1024) },
    { name := "memory-final".data, units := "kbytes".data,
      pat := .mem "Memory after building targets:".data,
      convert := fun s => .int (digitsToNat s / 1024) },
    { name := "time-sconscript".data, units := "seconds".data,
      pat := .time "Total SConscript file execution time:".data,
      convert := fun s => .str s },
    { name := "time-scons".data, units := "seconds".data,
      pat := .time "Total SCons execution time:".data,
      convert := fun s => .str s },
    { name := "time-commands".data, units := "seconds".data,
      pat := .time "Total command execution time:".data,
      convert := fun s => .str s },
    { name := "time-total".data, units := "seconds".data,
      pat := .time "Total build time:".data,
      convert := fun s => .str s } ]

/-- `collect_stats`: for each stat whose pattern matches somewhere in the
input, record name ↦ (converted value, units); Python's dict preserves
insertion order, modelled as an association list in `StatList` order. -/
def collect_stats (input : List Char) : List (List Char × PyVal × List Char) :=
  StatList.filterMap fun st =>
    (searchP (matchAt st.pat) input).map fun g => (st.name, st.convert g, st.units)

/-- First-match association-list lookup, as Python dict indexing. -/
def lookupStat (k : List Char) : List (List Char × PyVal × List Char) → Option (PyVal × List Char)
  | [] => none
  | e :: rest => if e.1 = k then some e.2 else lookupStat k rest

/-- Python `del d[k]`: `none` (a `KeyError`) when the key is absent. -/
def pyDel (k : List Char) (m : List (List Char × PyVal × List Char)) :
    Option (List (List Char × PyVal × List Char)) :=
  if m.any (fun e => e.1 == k) then some (m.filter (fun e => ¬ e.1 == k)) else none

end SconsTiming

namespace SconsTiming

theorem dropLit_eq_some {lit cs r : List Char} :
    dropLit lit cs = some r ↔ cs = lit ++ r := by
  induction lit generalizing cs with
  | nil =>
    simp [dropLit]
  | cons x xs ih =>
    cases cs with
    | nil => simp [dropLit]
    | cons y ys =>
      by_cases hxy : x = y
      · subst hxy
        simp [dropLit, ih]
      · simp [dropLit, hxy, Ne.symm hxy]

theorem dropLit_self_append (lit r : List Char) :
    dropLit lit (lit ++ r) = some r :=
  dropLit_eq_some.mpr rfl

theorem dropLit_append_none {li lj : List Char} (x : List Char)
    (h : dropLit (li.take lj.length) lj = none) :
    dropLit li (lj ++ x) = none := by
  induction li generalizing lj with
  | nil => simp [dropLit, List.take] at h
  | cons a as ih =>
    cases lj with
    | nil => simp [dropLit] at h
    | cons b bs =>
      simp only [List.length_cons, List.take_succ_cons, dropLit] at h ⊢
      by_cases hab : a = b
      · simp only [hab, if_true] at h ⊢
        exact ih h
      · simp [hab]

theorem takeWhile_run {p : Char → Bool} {a b : List Char}
    (ha : ∀ c ∈ a, p c = true)
    (hb : ∀ c l, b = c :: l → p c = false) :
    (a ++ b).takeWhile p = a := by
  induction a with
  | nil =>
    cases b with
    | nil => rfl
    | cons c l => simp [List.takeWhile_cons, hb c l rfl]
  | cons x xs ih =>
    have hx : p x = true := ha x (List.mem_cons_self x xs)
    simp only [List.cons_append, List.takeWhile_cons, hx, if_true]
    have := ih (fun c hc => ha c (List.mem_cons_of_mem x hc))
    simp [this]

theorem dropWhile_run {p : Char → Bool} {a b : List Char}
    (ha : ∀ c ∈ a, p c = true)
    (hb : ∀ c l, b = c :: l → p c = false) :
    (a ++ b).dropWhile p = b := by
  have h1 := List.takeWhile_append_dropWhile p (a ++ b)
  rw [takeWhile_run ha hb] at h1
  exact List.append_cancel_left h1

theorem dropWhile_head_not {p : Char → Bool} {l : List Char} {c : Char} {cs : List Char}
    (h : l.dropWhile p = c :: cs) : p c = false := by
  induction l with
  | nil => simp [List.dropWhile] at h
  | cons x xs ih =>
    by_cases hx : p x = true
    · rw [List.dropWhile_cons_of_pos hx] at h
      exact ih h
    · rw [List.dropWhile_cons_of_neg hx] at h
      cases h
      exact Bool.eq_false_iff.mpr hx

theorem space_not_digit {c : Char} (h : pyIsSpace c = true) : c.isDigit = false := by
  simp only [pyIsSpace, Bool.or_eq_true, decide_eq_true_eq] at h
  rcases h with ((((h | h) | h) | h) | h) | h <;> subst h <;> decide

theorem space_not_digitDot {c : Char} (h : pyIsSpace c = true) : isDigitDot c = false := by
  simp only [pyIsSpace, Bool.or_eq_true, decide_eq_true_eq] at h
  rcases h with ((((h | h) | h) | h) | h) | h <;> subst h <;> decide

/-- Declarative description of a match of `lit⬝\s+(\d+)` at the start of
`cs` with captured group `ds`. -/
def memDecomp (lit cs ds : List Char) : Prop :=
  ∃ sp rest, cs = lit ++ sp ++ ds ++ rest ∧ sp ≠ [] ∧ (∀ c ∈ sp, pyIsSpace c = true) ∧
    ds ≠ [] ∧ (∀ c ∈ ds, c.isDigit = true) ∧
    (∀ c l, rest = c :: l → c.isDigit = false)

/-- Declarative description of a match of `lit⬝\s+([\d.]+) seconds` at the
start of `cs` with captured group `ds`. -/
def timeDecomp (lit cs ds : List Char) : Prop :=
  ∃ sp rest, cs = lit ++ sp ++ ds ++ secLit ++ rest ∧ sp ≠ [] ∧
    (∀ c ∈ sp, pyIsSpace c = true) ∧
    ds ≠ [] ∧ (∀ c ∈ ds, isDigitDot c = true)

def decompAt : Pat → List Char → List Char → Prop
  | .mem lit => memDecomp lit
  | .time lit => timeDecomp lit

theorem digit_not_space {c : Char} (h : c.isDigit = true) : pyIsSpace c = false := by
  cases hps : pyIsSpace c
  · rfl
  · have h2 := space_not_digit hps
    rw [h] at h2
    exact absurd h2 (by simp)

theorem digitDot_not_space {c : Char} (h : isDigitDot c = true) : pyIsSpace c = false := by
  simp only [isDigitDot, Bool.or_eq_true, decide_eq_true_eq] at h
  rcases h with h | h
  · exact digit_not_space h
  · subst h; decide

theorem matchAt_mem_iff {lit cs ds : List Char} :
    matchAt (.mem lit) cs = some ds ↔ memDecomp lit cs ds := by
  constructor
  · intro h
    simp only [matchAt] at h
    split at h
    · exact absurd h (by simp)
    rename_i r1 hdl
    split at h
    · exact absurd h (by simp)
    rename_i s0 sps hsp
    split at h
    · exact absurd h (by simp)
    rename_i d0 dss hds
    simp only [Option.some.injEq] at h
    subst h
    refine ⟨s0 :: sps, (r1.dropWhile pyIsSpace).dropWhile Char.isDigit, ?_, by simp, ?_, by simp, ?_, ?_⟩
    · have h2 : (s0 :: sps) ++ r1.dropWhile pyIsSpace = r1 := by
        rw [← hsp]; exact List.takeWhile_append_dropWhile pyIsSpace r1
      have h3 : (d0 :: dss) ++ (r1.dropWhile pyIsSpace).dropWhile Char.isDigit =
          r1.dropWhile pyIsSpace := by
        rw [← hds]; exact List.takeWhile_append_dropWhile Char.isDigit (r1.dropWhile pyIsSpace)
      calc cs = lit ++ r1 := dropLit_eq_some.mp hdl
        _ = lit ++ ((s0 :: sps) ++ r1.dropWhile pyIsSpace) := by rw [h2]
        _ = lit ++ ((s0 :: sps) ++ ((d0 :: dss) ++
              (r1.dropWhile pyIsSpace).dropWhile Char.isDigit)) := by rw [h3]
        _ = lit ++ (s0 :: sps) ++ (d0 :: dss) ++
              (r1.dropWhile pyIsSpace).dropWhile Char.isDigit := by
              simp [List.append_assoc]
    · intro c hc
      exact List.mem_takeWhile_imp (by rw [hsp]; exact hc)
    · intro c hc
      exact List.mem_takeWhile_imp (by rw [hds]; exact hc)
    · intro c l hl
      exact dropWhile_head_not hl
  · rintro ⟨sp, rest, hcs, hspne, hspc, hdsne, hdsc, hrest⟩
    rcases ds with _ | ⟨d0, dss⟩
    · exact absurd rfl hdsne
    rcases sp with _ | ⟨s0, sps⟩
    · exact absurd rfl hspne
    have hdig0 : Char.isDigit d0 = true := hdsc d0 (List.mem_cons_self _ _)
    have hstop : ∀ c l, ((d0 :: dss) ++ rest) = c :: l → pyIsSpace c = false := by
      intro c l hl
      rw [List.cons_append] at hl
      injection hl with h1 h2
      subst h1
      exact digit_not_space hdig0
    have htw : ((s0 :: sps) ++ ((d0 :: dss) ++ rest)).takeWhile pyIsSpace = s0 :: sps :=
      takeWhile_run hspc hstop
    have hdw : ((s0 :: sps) ++ ((d0 :: dss) ++ rest)).dropWhile pyIsSpace = (d0 :: dss) ++ rest :=
      dropWhile_run hspc hstop
    have htw2 : ((d0 :: dss) ++ rest).takeWhile Char.isDigit = d0 :: dss :=
      takeWhile_run hdsc hrest
    have hcs' : cs = lit ++ ((s0 :: sps) ++ ((d0 :: dss) ++ rest)) := by
      rw [hcs]; simp [List.append_assoc]
    simp only [matchAt, hcs', dropLit_self_append, htw, hdw, htw2]

end SconsTiming

namespace SconsTiming

theorem matchAt_time_iff {lit cs ds : List Char} :
    matchAt (.time lit) cs = some ds ↔ timeDecomp lit cs ds := by
  constructor
  · intro h
    simp only [matchAt] at h
    split at h
    · exact absurd h (by simp)
    rename_i r1 hdl
    split at h
    · exact absurd h (by simp)
    rename_i s0 sps hsp
    split at h
    · exact absurd h (by simp)
    rename_i d0 dss hds
    split at h
    · exact absurd h (by simp)
    rename_i r3 hsec
    simp only [Option.some.injEq] at h
    subst h
    refine ⟨s0 :: sps, r3, ?_, by simp, ?_, by simp, ?_⟩
    · have h2 : (s0 :: sps) ++ r1.dropWhile pyIsSpace = r1 := by
        rw [← hsp]; exact List.takeWhile_append_dropWhile pyIsSpace r1
      have h3 : (d0 :: dss) ++ (r1.dropWhile pyIsSpace).dropWhile isDigitDot =
          r1.dropWhile pyIsSpace := by
        rw [← hds]; exact List.takeWhile_append_dropWhile isDigitDot (r1.dropWhile pyIsSpace)
      have h4 : (r1.dropWhile pyIsSpace).dropWhile isDigitDot = secLit ++ r3 :=
        dropLit_eq_some.mp hsec
      calc cs = lit ++ r1 := dropLit_eq_some.mp hdl
        _ = lit ++ ((s0 :: sps) ++ r1.dropWhile pyIsSpace) := by rw [h2]
        _ = lit ++ ((s0 :: sps) ++ ((d0 :: dss) ++
              (r1.dropWhile pyIsSpace).dropWhile isDigitDot)) := by rw [h3]
        _ = lit ++ ((s0 :: sps) ++ ((d0 :: dss) ++ (secLit ++ r3))) := by rw [h4]
        _ = lit ++ (s0 :: sps) ++ (d0 :: dss) ++ secLit ++ r3 := by
              simp [List.append_assoc]
    · intro c hc
      exact List.mem_takeWhile_imp (by rw [hsp]; exact hc)
    · intro c hc
      exact List.mem_takeWhile_imp (by rw [hds]; exact hc)
  · rintro ⟨sp, rest, hcs, hspne, hspc, hdsne, hdsc⟩
    rcases ds with _ | ⟨d0, dss⟩
    · exact absurd rfl hdsne
    rcases sp with _ | ⟨s0, sps⟩
    · exact absurd rfl hspne
    have hdig0 : isDigitDot d0 = true := hdsc d0 (List.mem_cons_self _ _)
    have hstop : ∀ c l, ((d0 :: dss) ++ (secLit ++ rest)) = c :: l → pyIsSpace c = false := by
      intro c l hl
      rw [List.cons_append] at hl
      injection hl with h1 h2
      subst h1
      exact digitDot_not_space hdig0
    have hsecstop : ∀ c l, (secLit ++ rest) = c :: l → isDigitDot c = false := by
      intro c l hl
      have : secLit ++ rest = ' ' :: ("seconds".data ++ rest) := rfl
      rw [this] at hl
      injection hl with h1 h2
      subst h1
      decide
    have htw : ((s0 :: sps) ++ ((d0 :: dss) ++ (secLit ++ rest))).takeWhile pyIsSpace
        = s0 :: sps := takeWhile_run hspc hstop
    have hdw : ((s0 :: sps) ++ ((d0 :: dss) ++ (secLit ++ rest))).dropWhile pyIsSpace
        = (d0 :: dss) ++ (secLit ++ rest) := dropWhile_run hspc hstop
    have htw2 : ((d0 :: dss) ++ (secLit ++ rest)).takeWhile isDigitDot = d0 :: dss :=
      takeWhile_run hdsc hsecstop
    have hdw2 : ((d0 :: dss) ++ (secLit ++ rest)).dropWhile isDigitDot = secLit ++ rest :=
      dropWhile_run hdsc hsecstop
    have hcs' : cs = lit ++ ((s0 :: sps) ++ ((d0 :: dss) ++ (secLit ++ rest))) := by
      rw [hcs]; simp [List.append_assoc]
    simp only [matchAt, hcs', dropLit_self_append, htw, hdw, htw2, hdw2]

theorem matchAt_iff {p : Pat} {cs ds : List Char} :
    matchAt p cs = some ds ↔ decompAt p cs ds := by
  cases p with
  | mem lit => exact matchAt_mem_iff
  | time lit => exact matchAt_time_iff

theorem searchP_eq_none_iff {p : List Char → Option α} {cs : List Char} :
    searchP p cs = none ↔ ∀ k, p (cs.drop k) = none := by
  induction cs with
  | nil =>
    simp only [searchP, List.drop_nil]
    exact ⟨fun h _ => h, fun h => h 0⟩
  | cons c t ih =>
    constructor
    · intro h k
      simp only [searchP] at h
      cases hp : p (c :: t) with
      | some v => rw [hp] at h; exact absurd h (by simp)
      | none =>
        rw [hp] at h
        cases k with
        | zero => exact hp
        | succ k => exact ih.mp h k
    · intro h
      simp only [searchP]
      have h0 := h 0
      simp only [List.drop_zero] at h0
      rw [h0]
      exact ih.mpr fun k => h (k + 1)

theorem searchP_eq_some_iff {p : List Char → Option α} {cs : List Char} {v : α} :
    searchP p cs = some v ↔
      ∃ k, p (cs.drop k) = some v ∧ ∀ j, j < k → p (cs.drop j) = none := by
  induction cs with
  | nil =>
    simp only [searchP, List.drop_nil]
    constructor
    · intro h
      exact ⟨0, h, by omega⟩
    · rintro ⟨k, hk, hlt⟩
      exact hk
  | cons c t ih =>
    constructor
    · intro h
      simp only [searchP] at h
      cases hp : p (c :: t) with
      | some w =>
        rw [hp] at h
        simp only [Option.some.injEq] at h
        subst h
        exact ⟨0, hp, by omega⟩
      | none =>
        rw [hp] at h
        obtain ⟨k, hk, hlt⟩ := ih.mp h
        refine ⟨k + 1, hk, ?_⟩
        intro j hj
        cases j with
        | zero => exact hp
        | succ j => exact hlt j (by omega)
    · rintro ⟨k, hk, hlt⟩
      simp only [searchP]
      cases k with
      | zero =>
        simp only [List.drop_zero] at hk
        rw [hk]
      | succ k =>
        have h0 := hlt 0 (by omega)
        simp only [List.drop_zero] at h0
        rw [h0]
        exact ih.mpr ⟨k, hk, fun j hj => hlt (j + 1) (by omega)⟩

end SconsTiming

namespace SconsTiming

/-- The `collect_stats` loop over an arbitrary stat list. -/
def collectOver (l : List Stat) (input : List Char) :
    List (List Char × PyVal × List Char) :=
  l.filterMap fun st =>
    (searchP (matchAt st.pat) input).map fun g => (st.name, st.convert g, st.units)

theorem collect_stats_eq (input : List Char) :
    collect_stats input = collectOver StatList input := rfl

theorem lookup_collectOver_notmem {k : List Char} {l : List Stat} {input : List Char}
    (h : k ∉ l.map Stat.name) : lookupStat k (collectOver l input) = none := by
  induction l with
  | nil => rfl
  | cons a l ih =>
    simp only [List.map_cons, List.mem_cons, not_or] at h
    obtain ⟨h1, h2⟩ := h
    cases hs : searchP (matchAt a.pat) input with
    | none =>
      rw [collectOver, List.filterMap_cons_none (by rw [hs]; rfl)]
      exact ih h2
    | some g =>
      rw [collectOver, List.filterMap_cons_some (by rw [hs]; rfl)]
      simp only [lookupStat]
      rw [if_neg (fun he => h1 he.symm)]
      exact ih h2

theorem mem_collectOver_name {e : List Char × PyVal × List Char} {l : List Stat}
    {input : List Char} (h : e ∈ collectOver l input) : e.1 ∈ l.map Stat.name := by
  induction l with
  | nil => cases h
  | cons a l ih =>
    cases hs : searchP (matchAt a.pat) input with
    | none =>
      rw [collectOver, List.filterMap_cons_none (by rw [hs]; rfl)] at h
      exact List.mem_cons_of_mem _ (ih h)
    | some g =>
      rw [collectOver, List.filterMap_cons_some (by rw [hs]; rfl)] at h
      rcases List.mem_cons.mp h with rfl | h'
      · exact List.mem_cons_self _ _
      · exact List.mem_cons_of_mem _ (ih h')

theorem lookup_collectOver {l : List Stat} {st : Stat} {input : List Char}
    (hmem : st ∈ l) (hnd : (l.map Stat.name).Nodup) :
    lookupStat st.name (collectOver l input) =
      (searchP (matchAt st.pat) input).map fun g => (st.convert g, st.units) := by
  induction l with
  | nil => cases hmem
  | cons a l ih =>
    simp only [List.map_cons, List.nodup_cons] at hnd
    obtain ⟨hna, hnd2⟩ := hnd
    rcases List.mem_cons.mp hmem with rfl | hmem2
    · cases hs : searchP (matchAt st.pat) input with
      | none =>
        rw [collectOver, List.filterMap_cons_none (by rw [hs]; rfl)]
        simp only [Option.map_none']
        exact lookup_collectOver_notmem hna
      | some g =>
        rw [collectOver, List.filterMap_cons_some (by rw [hs]; rfl)]
        simp [lookupStat]
    · have hne : ¬ a.name = st.name := fun he =>
        hna (he ▸ List.mem_map.mpr ⟨st, hmem2, rfl⟩)
      cases hs : searchP (matchAt a.pat) input with
      | none =>
        rw [collectOver, List.filterMap_cons_none (by rw [hs]; rfl)]
        exact ih hmem2 hnd2
      | some g =>
        rw [collectOver, List.filterMap_cons_some (by rw [hs]; rfl)]
        simp only [lookupStat]
        rw [if_neg hne]
        exact ih hmem2 hnd2

theorem statNames_nodup : (StatList.map Stat.name).Nodup := by decide

/-- C1: for every input text and every entry of `StatList`, if the entry's
marker pattern matches in the text (leftmost match with captured number
`ds`), `collect_stats` maps the stat's name to the converted value and the
stat's units, where the three memory stats convert the matched integer by
integer division by 1024 (bytes to kilobytes) and the time stats keep the
literal matched text; if the pattern matches nowhere in the text the name is
not reported. -/
theorem C1_collect_stats_extracts (input : List Char) (st : Stat) (hst : st ∈ StatList) :
    (∀ k ds, decompAt st.pat (input.drop k) ds →
        (∀ j, j < k → ¬ ∃ ds0, decompAt st.pat (input.drop j) ds0) →
        lookupStat st.name (collect_stats input) = some (st.convert ds, st.units)) ∧
    ((∀ k ds, ¬ decompAt st.pat (input.drop k) ds) →
        lookupStat st.name (collect_stats input) = none) ∧
    (∀ ds, st.convert ds =
        if st.name = "memory-initial".data ∨ st.name = "memory-prebuild".data ∨
            st.name = "memory-final".data
        then PyVal.int (digitsToNat ds / 1024) else PyVal.str ds) := by
  refine ⟨?_, ?_, ?_⟩
  · intro k ds hdk hlt
    have hsearch : searchP (matchAt st.pat) input = some ds :=
      searchP_eq_some_iff.mpr ⟨k, matchAt_iff.mpr hdk, fun j hj => by
        cases hm : matchAt st.pat (input.drop j) with
        | none => rfl
        | some d0 => exact absurd ⟨d0, matchAt_iff.mp hm⟩ (hlt j hj)⟩
    rw [collect_stats_eq, lookup_collectOver hst statNames_nodup, hsearch]
    rfl
  · intro habs
    have hsearch : searchP (matchAt st.pat) input = none :=
      searchP_eq_none_iff.mpr fun k => by
        cases hm : matchAt st.pat (input.drop k) with
        | none => rfl
        | some d0 => exact absurd (matchAt_iff.mp hm) (habs k d0)
    rw [collect_stats_eq, lookup_collectOver hst statNames_nodup, hsearch]
    rfl
  · intro ds
    have hst7 := hst
    simp only [StatList, List.mem_cons, List.not_mem_nil, or_false] at hst7
    rcases hst7 with rfl | rfl | rfl | rfl | rfl | rfl | rfl
    · rw [if_pos (Or.inl rfl)]
    · rw [if_pos (Or.inr (Or.inl rfl))]
    · rw [if_pos (Or.inr (Or.inr rfl))]
    all_goals rw [if_neg (by decide)]

end SconsTiming

namespace SconsTiming

theorem C1_collect_stats_extracts_witness :
    lookupStat "memory-initial".data
        (collect_stats "Memory before reading SConscript files: 2048kB".data) =
      some (PyVal.int 2, "kbytes".data) := by
  have hst : ({ name := "memory-initial".data, units := "kbytes".data,
                pat := .mem "Memory before reading SConscript files:".data,
                convert := fun s => PyVal.int (digitsToNat s / 1024) } : Stat) ∈ StatList := by
    rw [StatList]; exact List.mem_cons_self _ _
  have hd : decompAt (.mem "Memory before reading SConscript files:".data)
      (("Memory before reading SConscript files: 2048kB".data).drop 0) "2048".data := by
    refine ⟨[' '], ['k', 'B'], by decide, by decide, by decide, by decide, by decide, ?_⟩
    intro c l hl
    injection hl with h1 _
    subst h1
    decide
  have h := (C1_collect_stats_extracts
      "Memory before reading SConscript files: 2048kB".data _ hst).1 0 "2048".data hd
      (fun j hj => absurd hj (Nat.not_lt_zero j))
  exact h

end SconsTiming

/-! Embedding of `bench/is_types.py`.  The class universe contains the
built-in types `dict`, `list`, `str`, the Python 3 wrapper classes
`UserDict`, `UserList`, `UserString` (which are not subclasses of the
built-ins), the benchmark's plain class `A`, and one representative proper
subclass of each built-in type, since Python permits classes such as
`class D(dict)`.  `isinstance(e, C)` holds when the runtime type of `e` is
`C` or a subclass of `C`; `type(e) is C` is exact class identity. -/

namespace IsTypes

inductive PyClass
  | dictC | listC | strC | userDict | userList | userString | classA
  | dictSub | listSub | strSub
  deriving DecidableEq

open PyClass

/-- The (reflexive) subclass relation of the modelled universe. -/
def subclassOf (a b : PyClass) : Bool :=
  a == b || (a == dictSub && b == dictC) || (a == listSub && b == listC) ||
    (a == strSub && b == strC)

/-- A Python object, classified by its runtime type. -/
structure PyObj where
  cls : PyClass

/-- Python `type(e)`. -/
def pytype (e : PyObj) : PyClass := e.cls

/-- Python `isinstance(e, (c1, c2))`. -/
def isinstance2 (e : PyObj) (c1 c2 : PyClass) : Bool :=
  subclassOf (pytype e) c1 || subclassOf (pytype e) c2

/-- Module-global aliases `DictType = dict` etc. -/
def DictType : PyClass := dictC

def ListType : PyClass := listC

def StringType : PyClass := strC

def original_is_Dict (e : PyObj) : Bool := isinstance2 e dictC userDict

def original_is_List (e : PyObj) : Bool := isinstance2 e listC userList

def original_is_String (e : PyObj) : Bool := isinstance2 e strC userString

def checkInstanceType_is_Dict (e : PyObj) : Bool := isinstance2 e dictC userDict

def checkInstanceType_is_List (e : PyObj) : Bool := isinstance2 e listC userList

def checkInstanceType_is_String (e : PyObj) : Bool := isinstance2 e strC userString

/-- `t = type(e); return t is dict or isinstance(e, UserDict)` — `is` is
exact type identity, so this drops proper subclasses of `dict`. -/
def cache_type_e_is_Dict (e : PyObj) : Bool :=
  let t := pytype e
  t == dictC || subclassOf (pytype e) userDict

def cache_type_e_is_List (e : PyObj) : Bool :=
  let t := pytype e
  t == listC || subclassOf (pytype e) userList

def cache_type_e_is_String (e : PyObj) : Bool :=
  let t := pytype e
  t == strC || subclassOf (pytype e) userString

def global_cache_type_e_is_Dict (e : PyObj) : Bool :=
  let t := pytype e
  t == DictType || subclassOf (pytype e) userDict

def global_cache_type_e_is_List (e : PyObj) : Bool :=
  let t := pytype e
  t == ListType || subclassOf (pytype e) userList

def global_cache_type_e_is_String (e : PyObj) : Bool :=
  let t := pytype e
  t == StringType || subclassOf (pytype e) userString

/-- C2 counterexample: on an instance of a proper subclass of `dict`
(allowed in Python, e.g. `class D(dict)`), `original_is_Dict` answers
`true` via `isinstance` while `cache_type_e_is_Dict` answers `false`
because `type(e) is dict` fails on the subclass, so the variants are not
interchangeable on every input value. -/
theorem C2_variants_differ_on_subclass :
    ¬ (original_is_Dict ⟨dictSub⟩ = cache_type_e_is_Dict ⟨dictSub⟩) := by
  decide

/-- C2 (amended): `original_is_*` and `checkInstanceType_is_*` agree on
every value, `cache_type_e_is_*` and `global_cache_type_e_is_*` agree on
every value, and all four variants of each family agree on every value
whose runtime type is not a proper subclass of the corresponding built-in
type. -/
theorem C2_variants_agree (e : PyObj) :
    (original_is_Dict e = checkInstanceType_is_Dict e ∧
     original_is_List e = checkInstanceType_is_List e ∧
     original_is_String e = checkInstanceType_is_String e) ∧
    (cache_type_e_is_Dict e = global_cache_type_e_is_Dict e ∧
     cache_type_e_is_List e = global_cache_type_e_is_List e ∧
     cache_type_e_is_String e = global_cache_type_e_is_String e) ∧
    (pytype e ≠ dictSub →
      original_is_Dict e = checkInstanceType_is_Dict e ∧
      original_is_Dict e = cache_type_e_is_Dict e ∧
      original_is_Dict e = global_cache_type_e_is_Dict e) ∧
    (pytype e ≠ listSub →
      original_is_List e = checkInstanceType_is_List e ∧
      original_is_List e = cache_type_e_is_List e ∧
      original_is_List e = global_cache_type_e_is_List e) ∧
    (pytype e ≠ strSub →
      original_is_String e = checkInstanceType_is_String e ∧
      original_is_String e = cache_type_e_is_String e ∧
      original_is_String e = global_cache_type_e_is_String e) := by
  obtain ⟨c⟩ := e
  cases c <;> simp_all <;> decide

theorem C2_variants_agree_witness :
    original_is_Dict ⟨PyClass.dictC⟩ = cache_type_e_is_Dict ⟨PyClass.dictC⟩ ∧
      original_is_String ⟨PyClass.userString⟩ =
        global_cache_type_e_is_String ⟨PyClass.userString⟩ :=
  ⟨((C2_variants_agree ⟨PyClass.dictC⟩).2.2.1 (by decide)).2.1,
   ((C2_variants_agree ⟨PyClass.userString⟩).2.2.2.2 (by decide)).2.2⟩

end IsTypes

/-! Embedding of `TimeSCons.copy_timing_configuration`.  A source tree is a
list of entries; `os.walk` visits a directory top-down, yielding its
subdirectory and file names (in directory order) before recursing.  The
loop body removes `'.svn'` from the yielded directory list in place, which
prunes the walk (file names in a directory are unique on a real
filesystem, so removing the first occurrence removes the only one), while
`dirs = [d for d in dirs if not d.startswith('TimeSCons-')]` rebinds a
local name and does not prune the walk: the walk still descends into
`TimeSCons-*` directories even though they are never created in the
destination.  Operations are applied to a destination state in which
`os.mkdir` and `shutil.copy2` fail when the parent directory of the
destination path does not exist (`shutil.copystat` does not change the
set of paths and is omitted). -/

namespace CopyCfg

inductive FEntry
  | file (name : String)
  | dir (name : String) (children : List FEntry)

inductive FOp
  | mkdir (path : List String)
  | copyFile (path : List String)
  deriving DecidableEq

/-- Whether a name begins with `'TimeSCons-'`. -/
def startsTS (s : String) : Bool := "TimeSCons-".data.isPrefixOf s.data

/-- The loop body for one `os.walk` yield: create the non-excluded
directories of this level, then copy the non-excluded files. -/
def levelOps (P : List String) (C : List FEntry) : List FOp :=
  let dirs0 := C.filterMap fun e => match e with
    | .dir n _ => some n
    | .file _ => none
  let files0 := C.filterMap fun e => match e with
    | .file n => some n
    | .dir _ _ => none
  let dirsKept := (dirs0.erase ".svn").filter fun d => !(startsTS d)
  let filesKept := files0.filter fun f => !(startsTS f)
  dirsKept.map (fun d => .mkdir (P ++ [d])) ++ filesKept.map (fun f => .copyFile (P ++ [f]))

/-- Recursion of `os.walk` into the yielded directory list after the
in-place `.svn` removal (which prunes) but with the `TimeSCons-` filter
only rebound locally (which does not prune). -/
def walkChildren : List String → List FEntry → List FOp
  | _, [] => []
  | P, .file _ :: rest => walkChildren P rest
  | P, .dir n sub :: rest =>
    (if n = ".svn" then []
     else levelOps (P ++ [n]) sub ++ walkChildren (P ++ [n]) sub) ++ walkChildren P rest

/-- All operations emitted by `copy_timing_configuration` on a source tree,
in execution order. -/
def copyOps (C : List FEntry) : List FOp :=
  levelOps [] C ++ walkChildren [] C

/-- Destination state: the set of relative paths created so far.  The
parent of a path must exist for `os.mkdir`/`shutil.copy2` to succeed. -/
def parentOk (fs : List (List String)) (p : List String) : Bool :=
  match p with
  | [] => false
  | [_] => true
  | _ => fs.contains p.dropLast

def applyOps (fs : List (List String)) : List FOp → Option (List (List String))
  | [] => some fs
  | .mkdir p :: rest => if parentOk fs p then applyOps (p :: fs) rest else none
  | .copyFile p :: rest => if parentOk fs p then applyOps (p :: fs) rest else none

/-- `copy_timing_configuration`, from an empty destination directory;
`none` is an uncaught `OSError` aborting the copy. -/
def copy_timing_configuration (C : List FEntry) : Option (List (List String)) :=
  applyOps [] (copyOps C)

end CopyCfg

namespace CopyCfg

/-- C3 (code bug): on a source tree whose `TimeSCons-old` directory
contains a file, the walk still descends into the excluded directory
(the `TimeSCons-` filter only rebinds a local name and does not prune
`os.walk`), so the copy of `TimeSCons-old/data` is attempted into a
destination directory that was never created and the function aborts with
an uncaught `OSError`, contradicting the docstring's promise to ignore
such directories; on a tree without a non-empty `TimeSCons-*` directory
the function copies exactly the non-excluded entries. -/
theorem C3_copy_aborts_in_excluded_dir :
    copy_timing_configuration [.dir "TimeSCons-old" [.file "data"]] = none ∧
    copy_timing_configuration
        [.dir "src" [.file "a"], .file "top", .dir ".svn" [.file "meta"]] =
      some [["src", "a"], ["top"], ["src"]] := by
  constructor <;>
    simp [copy_timing_configuration, copyOps, walkChildren, levelOps, applyOps,
      parentOk, startsTS]

end CopyCfg

namespace SconsTiming

/-- `TimeSCons.trace`: one line written to standard output, with the sort
field appended before the newline when given. -/
def traceLine (graph nm value units : List Char) (srt : Option (List Char)) : List Char :=
  let line := "TRACE: graph=".data ++ graph ++ " name=".data ++ nm ++
    " value=".data ++ value ++ " units=".data ++ units
  let line2 := match srt with
    | none => line
    | some s => line ++ " sort=".data ++ s
  line2 ++ ['\n']

/-- `report_traces`: the elapsed-time line (sort=0), then one trace line
per collected stat, in dictionary order. -/
def report_traces (tr : List Char) (elapsed : List Char)
    (stats : List (List Char × PyVal × List Char)) : List (List Char) :=
  traceLine "TimeSCons-elapsed".data tr elapsed "seconds".data (some "0".data)
    :: stats.map fun e => traceLine e.1 tr (pyRender e.2.1) e.2.2 none

/-- The `status` keyword passed to the framework's run: absent, explicitly
`None`, or an expected exit status. -/
inductive StatusSpec
  | default
  | noCheck
  | expect (n : Int)
  deriving DecidableEq

structure RunKw where
  options : Option (List Char)
  status : StatusSpec
  deriving DecidableEq

/-- `add_timing_options`: append the optional additional options and
` --debug=memory,time` to `kw['options']` (absent meaning ''). -/
def add_timing_options (additional : Option (List Char)) (kw : RunKw) : RunKw :=
  { kw with
    options := some (kw.options.getD [] ++ additional.getD [] ++ " --debug=memory,time".data) }

/-- Modelled from the spec: `TestSCons.run` (defined in the framework's
`TestSCons`/`TestCmd` modules, which are not under `src/`) terminates the
harness when the invoked tool's exit status does not match the expected
status; an expected status of `None` disables the check ("a failed 'help'
invocation is tolerated by disabling exit-status checking for that one
call"), and when no status is given the framework requires a successful
exit. -/
def runAccepts (s : StatusSpec) (exitStatus : Int) : Bool :=
  match s with
  | .noCheck => true
  | .default => exitStatus == 0
  | .expect n => exitStatus == n

/-- The outcome of one tool invocation: the tool's standard output (as
re-read by `self.stdout()`) and the rendering of the elapsed time. -/
structure RunResult where
  out : List Char
  elapsed : List Char
  deriving DecidableEq

/-- Observable actions of the harness: a chunk written to standard output,
or a tool invocation with its options, status expectation and whether it
is the `up_to_date` (null-build) variant. -/
inductive Ev
  | write (chunk : List Char)
  | runTool (options : List Char) (status : StatusSpec) (upToDate : Bool)
  deriving DecidableEq

/-- `startup`: add ` --help` and the timing options, disable the status
check, run the tool, echo its stdout, collect stats, unconditionally
delete `time-commands` (an uncaught `KeyError` when absent) and report the
remaining traces. -/
def startup (kw : RunKw) (r : RunResult) : List Ev × Option String :=
  let kw1 := add_timing_options (some " --help".data) kw
  let kw2 : RunKw := { kw1 with status := .noCheck }
  let evs0 : List Ev := [.runTool (kw2.options.getD []) kw2.status false, .write r.out]
  match pyDel "time-commands".data (collect_stats r.out) with
  | none => (evs0, some "KeyError")
  | some stats2 =>
    (evs0 ++ (report_traces "startup".data r.elapsed stats2).map .write, none)

/-- `full`: run with the timing options, echo stdout, report all traces and
the three full-memory lines (an uncaught `KeyError` when a memory stat is
absent). -/
def full (kw : RunKw) (r : RunResult) : List Ev × Option String :=
  let kw1 := add_timing_options none kw
  let evs0 : List Ev := [.runTool (kw1.options.getD []) kw1.status false, .write r.out]
  let stats := collect_stats r.out
  let evs1 := evs0 ++ (report_traces "full".data r.elapsed stats).map .write
  match lookupStat "memory-initial".data stats with
  | none => (evs1, some "KeyError")
  | some mi =>
    let evs2 := evs1 ++
      [.write (traceLine "full-memory".data "initial".data (pyRender mi.1) mi.2 none)]
    match lookupStat "memory-prebuild".data stats with
    | none => (evs2, some "KeyError")
    | some mp =>
      let evs3 := evs2 ++
        [.write (traceLine "full-memory".data "prebuild".data (pyRender mp.1) mp.2 none)]
      match lookupStat "memory-final".data stats with
      | none => (evs3, some "KeyError")
      | some mf =>
        (evs3 ++
          [.write (traceLine "full-memory".data "final".data (pyRender mf.1) mf.2 none)],
         none)

/-- Python `float(v) == 0.0` for values stored by `collect_stats`: an int
compares to zero directly; a string captured by `[\d.]+` parses as a float
exactly when it has at least one digit and at most one dot, and is zero
exactly when all its digits are `'0'` (floating-point underflow of
extremely long fractions is outside this model).  `none` is an uncaught
`ValueError`. -/
def pyFloatZero : PyVal → Option Bool
  | .int n => some (n == 0)
  | .str s =>
    if s.any Char.isDigit ∧ s.count '.' ≤ 1 ∧ s.all isDigitDot then
      some (s.all fun c => c = '0' || c = '.')
    else none

/-- `null`: run `up_to_date` with the timing options, echo stdout, remove
`time-commands` from the stats only when its value is 0.0 (indexing it
raises `KeyError` when absent), report traces and the three null-memory
lines. -/
def nullBuild (kw : RunKw) (r : RunResult) : List Ev × Option String :=
  let kw1 := add_timing_options none kw
  let evs0 : List Ev := [.runTool (kw1.options.getD []) kw1.status true, .write r.out]
  let stats := collect_stats r.out
  match lookupStat "time-commands".data stats with
  | none => (evs0, some "KeyError")
  | some tc =>
    match pyFloatZero tc.1 with
    | none => (evs0, some "ValueError")
    | some z =>
      let stats2 := if z then stats.filter (fun e => !(e.1 == "time-commands".data))
        else stats
      let evs1 := evs0 ++ (report_traces "null".data r.elapsed stats2).map .write
      match lookupStat "memory-initial".data stats2 with
      | none => (evs1, some "KeyError")
      | some mi =>
        let evs2 := evs1 ++
          [.write (traceLine "null-memory".data "initial".data (pyRender mi.1) mi.2 none)]
        match lookupStat "memory-prebuild".data stats2 with
        | none => (evs2, some "KeyError")
        | some mp =>
          let evs3 := evs2 ++
            [.write (traceLine "null-memory".data "prebuild".data (pyRender mp.1) mp.2 none)]
          match lookupStat "memory-final".data stats2 with
          | none => (evs3, some "KeyError")
          | some mf =>
            (evs3 ++
              [.write (traceLine "null-memory".data "final".data (pyRender mf.1) mf.2 none)],
             none)

/-- Association lookup for `self.variables`. -/
def lookupA (k : List Char) : List (List Char × List Char) → Option (List Char)
  | [] => none
  | e :: rest => if e.1 = k then some e.2 else lookupA k rest

/-- The VARIABLE lines of a calibration run, until a missing variable
raises `KeyError`. -/
def calibVarWrites (calVars : List (List Char)) (vars : List (List Char × List Char)) :
    List (List Char) × Option String :=
  match calVars with
  | [] => ([], none)
  | v :: rest =>
    match lookupA v vars with
    | none => ([], some "KeyError")
    | some val =>
      let w := calibVarWrites rest vars
      (("VARIABLE: ".data ++ v ++ "=".data ++ val ++ ['\n']) :: w.1, w.2)

/-- `calibration`: run with the timing options, then write one VARIABLE
line per calibrate variable and one ELAPSED line. -/
def calibration (vars : List (List Char × List Char)) (calVars : List (List Char))
    (kw : RunKw) (r : RunResult) : List Ev × Option String :=
  let kw1 := add_timing_options none kw
  let evs0 : List Ev := [.runTool (kw1.options.getD []) kw1.status false]
  let w := calibVarWrites calVars vars
  match w.2 with
  | some e => (evs0 ++ w.1.map .write, some e)
  | none =>
    (evs0 ++ w.1.map .write ++ [.write ("ELAPSED: ".data ++ r.elapsed ++ ['\n'])], none)

/-- Python `fp.readline()`: the first line, including its newline when
present. -/
def readline : List Char → List Char
  | [] => []
  | c :: t => if c = '\n' then ['\n'] else c :: readline t

/-- Python `str.split(" ")`: split on every single space, without
collapsing runs. -/
def splitSp : List Char → List (List Char)
  | [] => [[]]
  | c :: t =>
    if c = ' ' then [] :: splitSp t
    else
      match splitSp t with
      | [] => [[c]]
      | w :: ws => (c :: w) :: ws

/-- `uptime`: a failed open of `/proc/loadavg` (modelled by `none`) is
caught and ignored; otherwise the first three space-separated fields of
the first line are traced (unpacking fewer than three fields raises an
uncaught `ValueError`). -/
def uptime (loadavg : Option (List Char)) : List (List Char) × Option String :=
  match loadavg with
  | none => ([], none)
  | some content =>
    match (splitSp (readline content)).take 3 with
    | [a1, a5, a15] =>
      ([traceLine "load-average".data "average1".data a1 "processes".data none,
        traceLine "load-average".data "average5".data a5 "processes".data none,
        traceLine "load-average".data "average15".data a15 "processes".data none], none)
    | _ => ([], some "ValueError")

def liftW (w : List (List Char) × Option String) : List Ev × Option String :=
  (w.1.map .write, w.2)

/-- Sequencing with uncaught-exception propagation: a raised error keeps
the output so far and skips the continuation. -/
def seqE (a : List Ev × Option String) (b : Unit → List Ev × Option String) :
    List Ev × Option String :=
  match a.2 with
  | some e => (a.1, some e)
  | none => (a.1 ++ (b ()).1, (b ()).2)

/-- The environment of one `main` call: the loadavg file contents (when
openable) and the outcome of each potential tool invocation. -/
structure World where
  loadavg : Option (List Char)
  helpRun : RunResult
  fullRun : RunResult
  nullRun : RunResult
  calibRun : RunResult

def joinSp : List (List Char) → List Char
  | [] => []
  | [x] => x
  | x :: y :: rest => x ++ ' ' :: joinSp (y :: rest)

/-- The `'%s=%s'` options string built by `main` from `self.variables`. -/
def optionsFromVariables (vars : List (List Char × List Char)) : List Char :=
  joinSp (vars.map fun v => v.1 ++ "=".data ++ v.2)

/-- The keyword update at the top of `main`: fill in `kw['options']` from
the variables when absent and the variables are non-empty (a falsy
`self.variables`, `None` or empty, leaves kw unchanged). -/
def mainKw (vars : List (List Char × List Char)) (kw : RunKw) : RunKw :=
  if kw.options = none ∧ vars ≠ []
    then { kw with options := some (optionsFromVariables vars) } else kw

/-- `main`: fill in `kw['options']` from the variables when absent and the
variables are non-empty, then either a single calibration run, or uptime,
startup, full and null in sequence. -/
def main (calibrate : Bool) (vars : List (List Char × List Char))
    (calVars : List (List Char)) (kw : RunKw) (w : World) : List Ev × Option String :=
  let kwEff := mainKw vars kw
  if calibrate then calibration vars calVars kwEff w.calibRun
  else
    seqE (liftW (uptime w.loadavg)) fun _ =>
      seqE (startup kwEff w.helpRun) fun _ =>
        seqE (full kwEff w.fullRun) fun _ =>
          nullBuild kwEff w.nullRun

end SconsTiming

namespace SconsTiming

/-- C4: every call of `trace` writes exactly one line of the form
`TRACE: graph=<g> name=<n> value=<v> units=<u>` followed by a newline when
`sort` is `None`, with ` sort=<s>` appended before the newline otherwise;
it is a single line whenever the rendered arguments contain no newline. -/
theorem C4_trace_line_format (g n v u : List Char) :
    traceLine g n v u none =
      "TRACE: graph=".data ++ g ++ " name=".data ++ n ++ " value=".data ++ v ++
        " units=".data ++ u ++ ['\n'] ∧
    (∀ s, traceLine g n v u (some s) =
      "TRACE: graph=".data ++ g ++ " name=".data ++ n ++ " value=".data ++ v ++
        " units=".data ++ u ++ " sort=".data ++ s ++ ['\n']) ∧
    (∀ srt, '\n' ∉ g → '\n' ∉ n → '\n' ∉ v → '\n' ∉ u →
      (∀ s, srt = some s → '\n' ∉ s) →
      (traceLine g n v u srt).count '\n' = 1) := by
  refine ⟨by simp [traceLine, List.append_assoc], fun s => by simp [traceLine, List.append_assoc], ?_⟩
  intro srt hg hn hv hu hs
  cases srt with
  | none =>
    simp only [traceLine, List.count_append, List.count_cons, List.count_nil]
    rw [List.count_eq_zero.mpr hg, List.count_eq_zero.mpr hn,
      List.count_eq_zero.mpr hv, List.count_eq_zero.mpr hu]
    decide
  | some s =>
    have hs2 : '\n' ∉ s := hs s rfl
    simp only [traceLine, List.count_append, List.count_cons, List.count_nil]
    rw [List.count_eq_zero.mpr hg, List.count_eq_zero.mpr hn,
      List.count_eq_zero.mpr hv, List.count_eq_zero.mpr hu, List.count_eq_zero.mpr hs2]
    decide

theorem C4_trace_line_format_witness :
    traceLine "full-memory".data "initial".data "12".data "kbytes".data none =
      "TRACE: graph=full-memory name=initial value=12 units=kbytes\n".data ∧
    (traceLine "full-memory".data "initial".data "12".data "kbytes".data none).count '\n' = 1 :=
  ⟨((C4_trace_line_format "full-memory".data "initial".data "12".data
        "kbytes".data).1).trans (by decide),
   (C4_trace_line_format "full-memory".data "initial".data "12".data "kbytes".data).2.2
     none (by decide) (by decide) (by decide) (by decide) (fun s hs => nomatch hs)⟩

/-- C5: `startup` overwrites the expected status with `None` before
running, so its (first and only) tool invocation carries the disabled
status check and the harness accepts every exit status of the help run. -/
theorem C5_startup_ignores_exit_status (kw : RunKw) (r : RunResult) (exitStatus : Int) :
    (∃ rest, (startup kw r).1 =
      Ev.runTool ((add_timing_options (some " --help".data) kw).options.getD [])
        StatusSpec.noCheck false :: rest) ∧
    runAccepts StatusSpec.noCheck exitStatus = true := by
  constructor
  · cases h : pyDel "time-commands".data (collect_stats r.out) with
    | none =>
      exact ⟨[Ev.write r.out], by simp [startup, h]⟩
    | some stats2 =>
      exact ⟨Ev.write r.out ::
        (report_traces "startup".data r.elapsed stats2).map Ev.write, by simp [startup, h]⟩
  · rfl

theorem readline_append_seg {x : List Char} (y : List Char) (hx : '\n' ∉ x) :
    readline (x ++ y) = x ++ readline y := by
  induction x with
  | nil => rfl
  | cons c t ih =>
    have hc : ¬ c = '\n' := fun hce => hx (hce ▸ List.mem_cons_self c t)
    simp only [List.cons_append, readline, if_neg hc, List.append_eq]
    rw [ih (fun hm => hx (List.mem_cons_of_mem c hm))]

theorem splitSp_append_seg {x : List Char} (y : List Char) (hx : ' ' ∉ x) :
    splitSp (x ++ ' ' :: y) = x :: splitSp y := by
  induction x with
  | nil => simp [splitSp]
  | cons c t ih =>
    have hc : ¬ c = ' ' := fun hce => hx (hce ▸ List.mem_cons_self c t)
    simp only [List.cons_append, splitSp, if_neg hc, List.append_eq]
    rw [ih (fun hm => hx (List.mem_cons_of_mem c hm))]

/-- C6: a failed open of `/proc/loadavg` is caught and ignored (no trace
lines, normal return); when the file opens, the three load-average trace
lines are emitted from the first three space-separated fields of its
first line. -/
theorem C6_uptime_loadavg (a b c rest : List Char)
    (ha1 : ' ' ∉ a) (ha2 : '\n' ∉ a) (hb1 : ' ' ∉ b) (hb2 : '\n' ∉ b)
    (hc1 : ' ' ∉ c) (hc2 : '\n' ∉ c) :
    uptime none = ([], none) ∧
    uptime (some (a ++ ' ' :: (b ++ ' ' :: (c ++ ' ' :: rest)))) =
      ([traceLine "load-average".data "average1".data a "processes".data none,
        traceLine "load-average".data "average5".data b "processes".data none,
        traceLine "load-average".data "average15".data c "processes".data none],
       none) := by
  refine ⟨rfl, ?_⟩
  have hx : '\n' ∉ a ++ ' ' :: (b ++ ' ' :: (c ++ [' '])) := by
    simp only [List.mem_append, List.mem_cons, List.mem_singleton]
    rintro ((h | (h | (h | (h | h)))))
    · exact ha2 h
    · exact absurd h (by decide)
    · exact hb2 h
    · exact absurd h (by decide)
    · rcases h with h | h
      · exact hc2 h
      · exact absurd h (by decide)
  have heq : a ++ ' ' :: (b ++ ' ' :: (c ++ ' ' :: rest)) =
      (a ++ ' ' :: (b ++ ' ' :: (c ++ [' ']))) ++ rest := by
    simp [List.append_assoc]
  have hrl : readline (a ++ ' ' :: (b ++ ' ' :: (c ++ ' ' :: rest))) =
      a ++ ' ' :: (b ++ ' ' :: (c ++ ' ' :: readline rest)) := by
    rw [heq, readline_append_seg rest hx]
    simp [List.append_assoc]
  have hsplit : splitSp (a ++ ' ' :: (b ++ ' ' :: (c ++ ' ' :: readline rest))) =
      a :: b :: c :: splitSp (readline rest) := by
    rw [splitSp_append_seg _ ha1, splitSp_append_seg _ hb1, splitSp_append_seg _ hc1]
  simp only [uptime, hrl, hsplit, List.take_succ_cons, List.take_zero]

theorem C6_uptime_loadavg_witness :
    uptime (some "0.00 0.01 0.05 1/234 5678\n".data) =
      ([traceLine "load-average".data "average1".data "0.00".data "processes".data none,
        traceLine "load-average".data "average5".data "0.01".data "processes".data none,
        traceLine "load-average".data "average15".data "0.05".data "processes".data none],
       none) :=
  (C6_uptime_loadavg "0.00".data "0.01".data "0.05".data "1/234 5678\n".data
    (by decide) (by decide) (by decide) (by decide) (by decide) (by decide)).2

end SconsTiming

namespace SconsTiming

/-- The tool invocations among a list of events. -/
def runToolEvents (evs : List Ev) : List Ev :=
  evs.filter fun e => match e with
    | .runTool _ _ _ => true
    | .write _ => false

theorem runToolEvents_map_write (l : List (List Char)) :
    runToolEvents (l.map Ev.write) = [] := by
  induction l with
  | nil => rfl
  | cons x xs ih =>
    rw [List.map_cons, runToolEvents, List.filter]
    exact ih

theorem runToolEvents_cons_run (opts : List Char) (st : StatusSpec) (utd : Bool)
    (evs : List Ev) :
    runToolEvents (Ev.runTool opts st utd :: evs) =
      Ev.runTool opts st utd :: runToolEvents evs := by
  rw [runToolEvents, List.filter]
  rfl

theorem runToolEvents_cons_write (c : List Char) (evs : List Ev) :
    runToolEvents (Ev.write c :: evs) = runToolEvents evs := by
  rw [runToolEvents, List.filter]
  rfl

theorem runToolEvents_append (a b : List Ev) :
    runToolEvents (a ++ b) = runToolEvents a ++ runToolEvents b :=
  List.filter_append a b

theorem startup_shape (kw : RunKw) (r : RunResult) :
    ∃ ws : List (List Char), (startup kw r).1 =
      Ev.runTool ((add_timing_options (some " --help".data) kw).options.getD [])
          StatusSpec.noCheck false ::
        Ev.write r.out :: ws.map Ev.write := by
  cases h : pyDel "time-commands".data (collect_stats r.out) with
  | none => exact ⟨[], by simp [startup, h]⟩
  | some stats2 =>
    exact ⟨report_traces "startup".data r.elapsed stats2, by simp [startup, h]⟩

theorem full_shape (kw : RunKw) (r : RunResult) :
    ∃ ws : List (List Char), (full kw r).1 =
      Ev.runTool ((add_timing_options none kw).options.getD []) kw.status false ::
        Ev.write r.out :: ws.map Ev.write := by
  cases h1 : lookupStat "memory-initial".data (collect_stats r.out) with
  | none =>
    exact ⟨report_traces "full".data r.elapsed (collect_stats r.out),
      by simp [full, add_timing_options, h1, List.map_append]⟩
  | some mi =>
    cases h2 : lookupStat "memory-prebuild".data (collect_stats r.out) with
    | none =>
      exact ⟨report_traces "full".data r.elapsed (collect_stats r.out) ++
        [traceLine "full-memory".data "initial".data (pyRender mi.1) mi.2 none],
        by simp [full, add_timing_options, h1, h2, List.map_append]⟩
    | some mp =>
      cases h3 : lookupStat "memory-final".data (collect_stats r.out) with
      | none =>
        exact ⟨report_traces "full".data r.elapsed (collect_stats r.out) ++
          [traceLine "full-memory".data "initial".data (pyRender mi.1) mi.2 none,
           traceLine "full-memory".data "prebuild".data (pyRender mp.1) mp.2 none],
          by simp [full, add_timing_options, h1, h2, h3, List.map_append]⟩
      | some mf =>
        exact ⟨report_traces "full".data r.elapsed (collect_stats r.out) ++
          [traceLine "full-memory".data "initial".data (pyRender mi.1) mi.2 none,
           traceLine "full-memory".data "prebuild".data (pyRender mp.1) mp.2 none,
           traceLine "full-memory".data "final".data (pyRender mf.1) mf.2 none],
          by simp [full, add_timing_options, h1, h2, h3, List.map_append]⟩

theorem nullBuild_shape (kw : RunKw) (r : RunResult) :
    ∃ ws : List (List Char), (nullBuild kw r).1 =
      Ev.runTool ((add_timing_options none kw).options.getD []) kw.status true ::
        Ev.write r.out :: ws.map Ev.write := by
  cases h0 : lookupStat "time-commands".data (collect_stats r.out) with
  | none => exact ⟨[], by simp [nullBuild, add_timing_options, h0]⟩
  | some tc =>
    cases h1 : pyFloatZero tc.1 with
    | none => exact ⟨[], by simp [nullBuild, add_timing_options, h0, h1]⟩
    | some z =>
      refine ?_
      set stats2 := if z then
          (collect_stats r.out).filter (fun e => !(e.1 == "time-commands".data))
        else collect_stats r.out with hstats2
      cases h2 : lookupStat "memory-initial".data stats2 with
      | none =>
        exact ⟨report_traces "null".data r.elapsed stats2,
          by simp [nullBuild, add_timing_options, h0, h1, ← hstats2, h2, List.map_append]⟩
      | some mi =>
        cases h3 : lookupStat "memory-prebuild".data stats2 with
        | none =>
          exact ⟨report_traces "null".data r.elapsed stats2 ++
            [traceLine "null-memory".data "initial".data (pyRender mi.1) mi.2 none],
            by simp [nullBuild, add_timing_options, h0, h1, ← hstats2, h2, h3, List.map_append]⟩
        | some mp =>
          cases h4 : lookupStat "memory-final".data stats2 with
          | none =>
            exact ⟨report_traces "null".data r.elapsed stats2 ++
              [traceLine "null-memory".data "initial".data (pyRender mi.1) mi.2 none,
               traceLine "null-memory".data "prebuild".data (pyRender mp.1) mp.2 none],
              by simp [nullBuild, add_timing_options, h0, h1, ← hstats2, h2, h3, h4, List.map_append]⟩
          | some mf =>
            exact ⟨report_traces "null".data r.elapsed stats2 ++
              [traceLine "null-memory".data "initial".data (pyRender mi.1) mi.2 none,
               traceLine "null-memory".data "prebuild".data (pyRender mp.1) mp.2 none,
               traceLine "null-memory".data "final".data (pyRender mf.1) mf.2 none],
              by simp [nullBuild, add_timing_options, h0, h1, ← hstats2, h2, h3, h4, List.map_append]⟩

theorem calibration_shape (vars : List (List Char × List Char))
    (calVars : List (List Char)) (kw : RunKw) (r : RunResult) :
    ∃ ws : List (List Char), (calibration vars calVars kw r).1 =
      Ev.runTool ((add_timing_options none kw).options.getD []) kw.status false ::
        ws.map Ev.write := by
  cases h : (calibVarWrites calVars vars).2 with
  | none =>
    exact ⟨(calibVarWrites calVars vars).1 ++ ["ELAPSED: ".data ++ r.elapsed ++ ['\n']],
      by simp [calibration, add_timing_options, h, List.map_append]⟩
  | some e =>
    exact ⟨(calibVarWrites calVars vars).1, by simp [calibration, add_timing_options, h]⟩

end SconsTiming

namespace SconsTiming

/-- C7: in non-calibration mode `main` invokes the build tool exactly three
times, in order — a startup run with ` --help` and disabled status check, a
full build, then a null (up-to-date) build — provided no step raises an
uncaught exception before the later runs; in calibration mode it performs
exactly one calibration run. -/
theorem C7_main_run_sequence (vars : List (List Char × List Char))
    (calVars : List (List Char)) (kw : RunKw) (w : World) :
    ((uptime w.loadavg).2 = none →
      (startup (mainKw vars kw) w.helpRun).2 = none →
      (full (mainKw vars kw) w.fullRun).2 = none →
      runToolEvents (main false vars calVars kw w).1 =
        [Ev.runTool ((add_timing_options (some " --help".data) (mainKw vars kw)).options.getD [])
           StatusSpec.noCheck false,
         Ev.runTool ((add_timing_options none (mainKw vars kw)).options.getD [])
           (mainKw vars kw).status false,
         Ev.runTool ((add_timing_options none (mainKw vars kw)).options.getD [])
           (mainKw vars kw).status true]) ∧
    runToolEvents (main true vars calVars kw w).1 =
      [Ev.runTool ((add_timing_options none (mainKw vars kw)).options.getD [])
         (mainKw vars kw).status false] := by
  constructor
  · intro h1 h2 h3
    have hmain : (main false vars calVars kw w).1 =
        (liftW (uptime w.loadavg)).1 ++ ((startup (mainKw vars kw) w.helpRun).1 ++
          ((full (mainKw vars kw) w.fullRun).1 ++ (nullBuild (mainKw vars kw) w.nullRun).1)) := by
      simp only [main, if_neg (Bool.false_ne_true), seqE, liftW, h1, h2, h3]
    obtain ⟨w1, hw1⟩ := startup_shape (mainKw vars kw) w.helpRun
    obtain ⟨w2, hw2⟩ := full_shape (mainKw vars kw) w.fullRun
    obtain ⟨w3, hw3⟩ := nullBuild_shape (mainKw vars kw) w.nullRun
    rw [hmain, runToolEvents_append, runToolEvents_append, runToolEvents_append,
      hw1, hw2, hw3]
    simp only [liftW, runToolEvents_map_write, runToolEvents_cons_run,
      runToolEvents_cons_write, List.nil_append, List.append_nil]
    rfl
  · have hmain : (main true vars calVars kw w).1 =
        (calibration vars calVars (mainKw vars kw) w.calibRun).1 := by
      simp [main]
    obtain ⟨w1, hw1⟩ := calibration_shape vars calVars (mainKw vars kw) w.calibRun
    rw [hmain, hw1]
    simp only [runToolEvents_cons_run, runToolEvents_map_write]

end SconsTiming

namespace SconsTiming

theorem calibVarWrites_all (calVars : List (List Char))
    (vars : List (List Char × List Char))
    (h : ∀ v ∈ calVars, lookupA v vars ≠ none) :
    calibVarWrites calVars vars =
      (calVars.map fun v =>
        "VARIABLE: ".data ++ v ++ "=".data ++ (lookupA v vars).getD [] ++ ['\n'],
       none) := by
  induction calVars with
  | nil => rfl
  | cons v rest ih =>
    cases hv : lookupA v vars with
    | none => exact absurd hv (h v (List.mem_cons_self _ _))
    | some val =>
      simp only [calibVarWrites, hv]
      rw [ih (fun u hu => h u (List.mem_cons_of_mem _ hu))]
      simp [hv]

/-- C8: a calibration run writes exactly one `VARIABLE: <name>=<value>`
line per calibrate variable and one `ELAPSED: <seconds>` line, in that
order, and none of its writes is a TRACE statistics line. -/
theorem C8_calibration_output (vars : List (List Char × List Char))
    (calVars : List (List Char)) (kw : RunKw) (r : RunResult)
    (h : ∀ v ∈ calVars, lookupA v vars ≠ none) :
    calibration vars calVars kw r =
      (Ev.runTool ((add_timing_options none kw).options.getD []) kw.status false ::
        ((calVars.map fun v =>
            "VARIABLE: ".data ++ v ++ "=".data ++ (lookupA v vars).getD [] ++ ['\n']) ++
          ["ELAPSED: ".data ++ r.elapsed ++ ['\n']]).map Ev.write,
       none) ∧
    (∀ chunk, Ev.write chunk ∈ (calibration vars calVars kw r).1 →
      dropLit "TRACE: ".data chunk = none) := by
  have hw := calibVarWrites_all calVars vars h
  have hcal : calibration vars calVars kw r =
      (Ev.runTool ((add_timing_options none kw).options.getD []) kw.status false ::
        ((calVars.map fun v =>
            "VARIABLE: ".data ++ v ++ "=".data ++ (lookupA v vars).getD [] ++ ['\n']) ++
          ["ELAPSED: ".data ++ r.elapsed ++ ['\n']]).map Ev.write,
       none) := by
    simp [calibration, add_timing_options, hw, List.map_append]
  refine ⟨hcal, ?_⟩
  intro chunk hchunk
  rw [hcal] at hchunk
  simp only [List.mem_cons, List.mem_map, List.mem_append, List.mem_singleton] at hchunk
  rcases hchunk with hchunk | ⟨l, hl, hle⟩
  · exact absurd hchunk (by simp)
  injection hle with hle2
  subst hle2
  rcases hl with ⟨v, hv, hlv⟩ | hl2
  · have hX : ∃ X, l = "VARIABLE: ".data ++ X :=
      ⟨v ++ "=".data ++ (lookupA v vars).getD [] ++ ['\n'],
       by rw [← hlv]; simp [List.append_assoc]⟩
    obtain ⟨X, hXe⟩ := hX
    rw [hXe]
    exact dropLit_append_none X (by decide)
  · rcases hl2 with rfl | h0
    · have hX : ∃ X, "ELAPSED: ".data ++ r.elapsed ++ ['\n'] = "ELAPSED: ".data ++ X :=
        ⟨r.elapsed ++ ['\n'], by simp [List.append_assoc]⟩
      obtain ⟨X, hXe⟩ := hX
      rw [hXe]
      exact dropLit_append_none X (by decide)
    · cases h0

theorem C8_calibration_output_witness :
    calibration [("NUM".data, "5".data)] ["NUM".data]
        { options := none, status := StatusSpec.default }
        { out := "tool output".data, elapsed := "1.5".data } =
      (Ev.runTool " --debug=memory,time".data StatusSpec.default false ::
        [Ev.write "VARIABLE: NUM=5\n".data, Ev.write "ELAPSED: 1.5\n".data],
       none) := by
  have h := (C8_calibration_output [("NUM".data, "5".data)] ["NUM".data]
      { options := none, status := StatusSpec.default }
      { out := "tool output".data, elapsed := "1.5".data }
      (by intro v hv; simp only [List.mem_singleton] at hv; subst hv; decide)).1
  exact h.trans (by decide)

theorem C7_main_run_sequence_witness :
    runToolEvents (main false [] []
        { options := none, status := StatusSpec.default }
        { loadavg := none,
          helpRun := { out := "Total command execution time: 0.0 seconds\n".data,
                       elapsed := "0.1".data },
          fullRun := { out := ("Memory before reading SConscript files: 1000\n" ++
                         "Memory before building targets: 2000\n" ++
                         "Memory after building targets: 3000\n").data,
                       elapsed := "2.0".data },
          nullRun := { out := "x".data, elapsed := "0.5".data },
          calibRun := { out := "y".data, elapsed := "1".data } }).1 =
      [Ev.runTool " --help --debug=memory,time".data StatusSpec.noCheck false,
       Ev.runTool " --debug=memory,time".data StatusSpec.default false,
       Ev.runTool " --debug=memory,time".data StatusSpec.default true] := by
  have h := (C7_main_run_sequence [] []
      { options := none, status := StatusSpec.default }
      { loadavg := none,
        helpRun := { out := "Total command execution time: 0.0 seconds\n".data,
                     elapsed := "0.1".data },
        fullRun := { out := ("Memory before reading SConscript files: 1000\n" ++
                       "Memory before building targets: 2000\n" ++
                       "Memory after building targets: 3000\n").data,
                     elapsed := "2.0".data },
        nullRun := { out := "x".data, elapsed := "0.5".data },
        calibRun := { out := "y".data, elapsed := "1".data } }).1
    rfl (by decide) (by decide)
  exact h.trans (by decide)

end SconsTiming

namespace SconsTiming

theorem anyKey_eq_false_of_lookup_none {k : List Char}
    {m : List (List Char × PyVal × List Char)} (h : lookupStat k m = none) :
    m.any (fun e => e.1 == k) = false := by
  induction m with
  | nil => rfl
  | cons e rest ih =>
    by_cases he : e.1 = k
    · rw [lookupStat, if_pos he] at h
      exact absurd h (by simp)
    · rw [lookupStat, if_neg he] at h
      simp only [List.any_cons, Bool.or_eq_false_iff]
      exact ⟨by simpa using he, ih h⟩

theorem pyDel_eq_none_of_lookup_none {k : List Char}
    {m : List (List Char × PyVal × List Char)} (h : lookupStat k m = none) :
    pyDel k m = none := by
  rw [pyDel, anyKey_eq_false_of_lookup_none h]
  rfl

/-- C9: `startup` deletes the `time-commands` entry unconditionally, so on
every help-run output in which the pattern
`Total command execution time: N seconds` matches nowhere, `startup`
raises an uncaught `KeyError` right after echoing the tool output and
reports none of the remaining statistics. -/
theorem C9_startup_keyerror_without_time_commands (kw : RunKw) (r : RunResult)
    (h : ∀ k ds, ¬ timeDecomp "Total command execution time:".data (r.out.drop k) ds) :
    startup kw r =
      ([Ev.runTool ((add_timing_options (some " --help".data) kw).options.getD [])
          StatusSpec.noCheck false, Ev.write r.out], some "KeyError") := by
  have hmem : ({ name := "time-commands".data, units := "seconds".data,
                 pat := .time "Total command execution time:".data,
                 convert := fun s => PyVal.str s } : Stat) ∈ StatList := by
    rw [StatList]
    exact List.mem_cons_of_mem _ (List.mem_cons_of_mem _ (List.mem_cons_of_mem _
      (List.mem_cons_of_mem _ (List.mem_cons_of_mem _ (List.mem_cons_self _ _)))))
  have hsearch : searchP (matchAt (.time "Total command execution time:".data)) r.out
      = none :=
    searchP_eq_none_iff.mpr fun k => by
      cases hm : matchAt (.time "Total command execution time:".data) (r.out.drop k) with
      | none => rfl
      | some ds => exact absurd (matchAt_time_iff.mp hm) (h k ds)
  have hlook : lookupStat "time-commands".data (collect_stats r.out) = none := by
    have h2 : lookupStat "time-commands".data (collectOver StatList r.out) =
        (searchP (matchAt (.time "Total command execution time:".data)) r.out).map
          fun g => (PyVal.str g, "seconds".data) :=
      lookup_collectOver hmem statNames_nodup
    rw [collect_stats_eq, h2, hsearch]
    rfl
  have hpd : pyDel "time-commands".data (collect_stats r.out) = none :=
    pyDel_eq_none_of_lookup_none hlook
  simp [startup, hpd]

theorem C9_startup_keyerror_witness :
    startup { options := none, status := StatusSpec.default }
        { out := "SCons by Steven Knight".data, elapsed := "0.1".data } =
      ([Ev.runTool " --help --debug=memory,time".data StatusSpec.noCheck false,
        Ev.write "SCons by Steven Knight".data], some "KeyError") := by
  have hs : searchP (matchAt (.time "Total command execution time:".data))
      "SCons by Steven Knight".data = none := by decide
  have h : ∀ k ds, ¬ timeDecomp "Total command execution time:".data
      (("SCons by Steven Knight".data).drop k) ds := by
    intro k ds hd
    have h2 := searchP_eq_none_iff.mp hs k
    rw [matchAt_time_iff.mpr hd] at h2
    cases h2
  exact (C9_startup_keyerror_without_time_commands
    { options := none, status := StatusSpec.default }
    { out := "SCons by Steven Knight".data, elapsed := "0.1".data } h).trans (by decide)

end SconsTiming

namespace SconsTiming

theorem traceLine_decomp (g nm v u : List Char) (srt : Option (List Char)) :
    ∃ X, traceLine g nm v u srt = ("TRACE: graph=".data ++ g ++ [' ']) ++ X := by
  have hseg : " name=".data = [' '] ++ "name=".data := by decide
  cases srt with
  | none =>
    refine ⟨"name=".data ++ nm ++ " value=".data ++ v ++ " units=".data ++ u ++ ['\n'], ?_⟩
    simp [traceLine, hseg, List.append_assoc]
  | some s =>
    refine ⟨"name=".data ++ nm ++ " value=".data ++ v ++ " units=".data ++ u ++
      " sort=".data ++ s ++ ['\n'], ?_⟩
    simp [traceLine, hseg, List.append_assoc]

theorem traceLine_marker_hit (g nm v u : List Char) (srt : Option (List Char)) :
    dropLit ("TRACE: graph=".data ++ g ++ [' ']) (traceLine g nm v u srt) ≠ none := by
  obtain ⟨X, hX⟩ := traceLine_decomp g nm v u srt
  rw [hX, dropLit_self_append]
  simp

theorem traceLine_marker_miss (mk g nm v u : List Char) (srt : Option (List Char))
    (h : dropLit (mk.take ("TRACE: graph=".data ++ g ++ [' ']).length)
        ("TRACE: graph=".data ++ g ++ [' ']) = none) :
    dropLit mk (traceLine g nm v u srt) = none := by
  obtain ⟨X, hX⟩ := traceLine_decomp g nm v u srt
  rw [hX]
  exact dropLit_append_none X h

theorem lookupStat_mem {k : List Char} {m : List (List Char × PyVal × List Char)}
    {p : PyVal × List Char} (h : lookupStat k m = some p) : (k, p) ∈ m := by
  induction m with
  | nil => cases h
  | cons e rest ih =>
    by_cases he : e.1 = k
    · rw [lookupStat, if_pos he] at h
      injection h with h2
      subst h2
      subst he
      exact List.mem_cons_self e rest
    · rw [lookupStat, if_neg he] at h
      exact List.mem_cons_of_mem _ (ih h)

theorem mem_collect_stats_name {e : List Char × PyVal × List Char} {input : List Char}
    (h : e ∈ collect_stats input) :
    e.1 = "memory-initial".data ∨ e.1 = "memory-prebuild".data ∨
    e.1 = "memory-final".data ∨ e.1 = "time-sconscript".data ∨
    e.1 = "time-scons".data ∨ e.1 = "time-commands".data ∨
    e.1 = "time-total".data := by
  rw [collect_stats_eq] at h
  have h2 := mem_collectOver_name h
  simpa [StatList] using h2

theorem report_null_no_tc {r : RunResult} {stats2 : List (List Char × PyVal × List Char)}
    (hsub : ∀ e ∈ stats2, e ∈ collect_stats r.out ∧ ¬ e.1 = "time-commands".data) :
    ∀ chunk ∈ report_traces "null".data r.elapsed stats2,
      dropLit "TRACE: graph=time-commands ".data chunk = none := by
  intro chunk hchunk
  rw [report_traces] at hchunk
  rcases List.mem_cons.mp hchunk with rfl | hchunk2
  · exact traceLine_marker_miss _ _ _ _ _ _ (by decide)
  · obtain ⟨e, he, rfl⟩ := List.mem_map.mp hchunk2
    obtain ⟨hein, hene⟩ := hsub e he
    rcases mem_collect_stats_name hein with h1 | h1 | h1 | h1 | h1 | h1 | h1
    · rw [h1]; exact traceLine_marker_miss _ _ _ _ _ _ (by decide)
    · rw [h1]; exact traceLine_marker_miss _ _ _ _ _ _ (by decide)
    · rw [h1]; exact traceLine_marker_miss _ _ _ _ _ _ (by decide)
    · rw [h1]; exact traceLine_marker_miss _ _ _ _ _ _ (by decide)
    · rw [h1]; exact traceLine_marker_miss _ _ _ _ _ _ (by decide)
    · exact absurd h1 hene
    · rw [h1]; exact traceLine_marker_miss _ _ _ _ _ _ (by decide)

theorem nullBuild_shape_tc (kw : RunKw) (r : RunResult) (tc : PyVal × List Char)
    (htc : lookupStat "time-commands".data (collect_stats r.out) = some tc)
    (z : Bool) (hz : pyFloatZero tc.1 = some z) :
    ∃ tail : List Ev,
      (nullBuild kw r).1 =
        Ev.runTool ((add_timing_options none kw).options.getD []) kw.status true ::
          Ev.write r.out ::
          ((report_traces "null".data r.elapsed
              (if z then (collect_stats r.out).filter
                  (fun e => !(e.1 == "time-commands".data))
                else collect_stats r.out)).map Ev.write ++ tail) ∧
      (∀ chunk, Ev.write chunk ∈ tail →
        ∃ nm val u2, chunk = traceLine "null-memory".data nm val u2 none) := by
  set stats2 := if z then
      (collect_stats r.out).filter (fun e => !(e.1 == "time-commands".data))
    else collect_stats r.out with hstats2
  cases h2 : lookupStat "memory-initial".data stats2 with
  | none =>
    refine ⟨[], ?_, ?_⟩
    · simp [nullBuild, add_timing_options, htc, hz, ← hstats2, h2]
    · intro chunk hc
      cases hc
  | some mi =>
    cases h3 : lookupStat "memory-prebuild".data stats2 with
    | none =>
      refine ⟨[Ev.write (traceLine "null-memory".data "initial".data (pyRender mi.1) mi.2 none)],
        ?_, ?_⟩
      · simp [nullBuild, add_timing_options, htc, hz, ← hstats2, h2, h3, List.map_append]
      · intro chunk hc
        simp only [List.mem_singleton] at hc
        injection hc with hc2
        exact ⟨_, _, _, hc2⟩
    | some mp =>
      cases h4 : lookupStat "memory-final".data stats2 with
      | none =>
        refine ⟨[Ev.write (traceLine "null-memory".data "initial".data (pyRender mi.1) mi.2 none),
          Ev.write (traceLine "null-memory".data "prebuild".data (pyRender mp.1) mp.2 none)],
          ?_, ?_⟩
        · simp [nullBuild, add_timing_options, htc, hz, ← hstats2, h2, h3, h4, List.map_append]
        · intro chunk hc
          simp only [List.mem_cons, List.mem_singleton, List.not_mem_nil, or_false] at hc
          rcases hc with hc | hc <;> (injection hc with hc2; exact ⟨_, _, _, hc2⟩)
      | some mf =>
        refine ⟨[Ev.write (traceLine "null-memory".data "initial".data (pyRender mi.1) mi.2 none),
          Ev.write (traceLine "null-memory".data "prebuild".data (pyRender mp.1) mp.2 none),
          Ev.write (traceLine "null-memory".data "final".data (pyRender mf.1) mf.2 none)],
          ?_, ?_⟩
        · simp [nullBuild, add_timing_options, htc, hz, ← hstats2, h2, h3, h4, List.map_append]
        · intro chunk hc
          simp only [List.mem_cons, List.mem_singleton, List.not_mem_nil, or_false] at hc
          rcases hc with hc | hc | hc <;> (injection hc with hc2; exact ⟨_, _, _, hc2⟩)

end SconsTiming

namespace SconsTiming

/-- C10: in a null build the `time-commands` statistic is removed from the
traced statistics if and only if its extracted value equals 0.0; when the
value is non-zero it is kept and reported as its own trace line, so a
supposedly-null build that executed commands is visible in the output. -/
theorem C10_null_keeps_nonzero_time_commands (kw : RunKw) (r : RunResult)
    (v : PyVal) (u : List Char) (z : Bool)
    (htc : lookupStat "time-commands".data (collect_stats r.out) = some (v, u))
    (hz : pyFloatZero v = some z) :
    ∃ rest : List Ev,
      (nullBuild kw r).1 =
        Ev.runTool ((add_timing_options none kw).options.getD []) kw.status true ::
          Ev.write r.out :: rest ∧
      ((∃ chunk, Ev.write chunk ∈ rest ∧
          dropLit "TRACE: graph=time-commands ".data chunk ≠ none) ↔ z = false) ∧
      (z = false →
        Ev.write (traceLine "time-commands".data "null".data (pyRender v) u none) ∈ rest) := by
  obtain ⟨tail, hshape, htail⟩ := nullBuild_shape_tc kw r (v, u) htc z hz
  cases z with
  | false =>
    rw [if_neg (by decide)] at hshape
    have hentry : ("time-commands".data, (v, u)) ∈ collect_stats r.out :=
      lookupStat_mem htc
    have hline : Ev.write (traceLine "time-commands".data "null".data (pyRender v) u none) ∈
        (report_traces "null".data r.elapsed (collect_stats r.out)).map Ev.write := by
      refine List.mem_map.mpr ⟨_, ?_, rfl⟩
      rw [report_traces]
      exact List.mem_cons_of_mem _
        (List.mem_map.mpr ⟨("time-commands".data, (v, u)), hentry, rfl⟩)
    have hmemb : Ev.write (traceLine "time-commands".data "null".data (pyRender v) u none) ∈
        (report_traces "null".data r.elapsed (collect_stats r.out)).map Ev.write ++ tail :=
      List.mem_append.mpr (Or.inl hline)
    refine ⟨_, hshape, ?_, fun _ => hmemb⟩
    constructor
    · intro _
      rfl
    · intro _
      refine ⟨traceLine "time-commands".data "null".data (pyRender v) u none, hmemb, ?_⟩
      have hmark : "TRACE: graph=time-commands ".data =
          "TRACE: graph=".data ++ "time-commands".data ++ [' '] := by decide
      rw [hmark]
      exact traceLine_marker_hit _ _ _ _ _
  | true =>
    rw [if_pos rfl] at hshape
    refine ⟨_, hshape, ?_, fun h0 => absurd h0 (by decide)⟩
    constructor
    · rintro ⟨chunk, hmem, hne⟩
      exfalso
      rcases List.mem_append.mp hmem with hm1 | hm2
      · obtain ⟨l, hl, hle⟩ := List.mem_map.mp hm1
        injection hle with hle2
        subst hle2
        refine hne (report_null_no_tc ?_ l hl)
        intro e he
        have h5 := List.mem_filter.mp he
        refine ⟨h5.1, ?_⟩
        have h6 := h5.2
        simp only [Bool.not_eq_eq_eq_not, Bool.not_true, beq_eq_false_iff_ne] at h6
        exact h6
      · obtain ⟨nm, val, u2, rfl⟩ := htail chunk hm2
        exact hne (traceLine_marker_miss _ _ _ _ _ _ (by decide))
    · intro h0
      exact absurd h0 (by decide)

end SconsTiming

namespace SconsTiming

theorem C10_null_keeps_nonzero_time_commands_witness :
    ∃ rest : List Ev,
      (nullBuild { options := none, status := StatusSpec.default }
          { out := "Total command execution time: 1.5 seconds\n".data,
            elapsed := "0.2".data }).1 =
        Ev.runTool " --debug=memory,time".data StatusSpec.default true ::
          Ev.write "Total command execution time: 1.5 seconds\n".data :: rest ∧
      ((∃ chunk, Ev.write chunk ∈ rest ∧
          dropLit "TRACE: graph=time-commands ".data chunk ≠ none) ↔ false = false) ∧
      (false = false →
        Ev.write (traceLine "time-commands".data "null".data "1.5".data
          "seconds".data none) ∈ rest) :=
  C10_null_keeps_nonzero_time_commands
    { options := none, status := StatusSpec.default }
    { out := "Total command execution time: 1.5 seconds\n".data, elapsed := "0.2".data }
    (PyVal.str "1.5".data) "seconds".data false (by decide) (by decide)

end SconsTiming
